import Mathlib

/-!
Shallow embedding of OpenObserve's sessions-table migrations:
`m20251118_000001_create_sessions_table.rs` (schema migration) and
`m20251118_000002_populate_sessions_table.rs` (data migration).

The data migration walks the generic `meta` table in pages of 100 records
whose `module` column equals "user_sessions", decodes each record to a
`(session_id, access_token)` pair, and batch-inserts the pairs into the new
`sessions` table inside a single transaction.  The schema migration builds
dialect-aware DDL statements for the `sessions` table and its unique index.
External effects (the database connection, the wall clock, the insert
statement execution) are modelled as explicit parameters; the event trace of
a run is made explicit so that transactional structure can be stated.
-/

/-- Row of the `meta` table as declared in the data migration's `meta` module:
`id`, `module`, `key1`, `key2`, `start_dt`, `value`. -/
structure MetaModel where
  id : Int
  module : String
  key1 : String
  key2 : String
  start_dt : Int
  value : String
deriving Repr, DecidableEq

/-- Row inserted into the `sessions` table by the data migration (the `id`
column is `NotSet`, i.e. auto-generated, so it is omitted here). -/
structure SessionRow where
  session_id : String
  access_token : String
  created_at : Int
  updated_at : Int
deriving Repr, DecidableEq

/-- JSON whitespace characters. -/
def is_json_ws (c : Char) : Bool :=
  c = ' ' || c = '\t' || c = '\n' || c = '\r'

/-- Value of one hexadecimal digit, if the character is one. -/
def hex_digit_val (c : Char) : Option Nat :=
  if '0' ≤ c ∧ c ≤ '9' then some (c.toNat - 48)
  else if 'a' ≤ c ∧ c ≤ 'f' then some (c.toNat - 87)
  else if 'A' ≤ c ∧ c ≤ 'F' then some (c.toNat - 55)
  else none

/-- Value of a four-hex-digit group of a JSON `\uXXXX` escape. -/
def hex4 (a b c d : Char) : Option Nat := do
  let va ← hex_digit_val a
  let vb ← hex_digit_val b
  let vc ← hex_digit_val c
  let vd ← hex_digit_val d
  some (va * 4096 + vb * 256 + vc * 16 + vd)

/-- Single-character JSON escapes (everything except `\uXXXX`). -/
def unescape_char (c : Char) : Option Char :=
  if c = '"' then some '"'
  else if c = '\\' then some '\\'
  else if c = '/' then some '/'
  else if c = 'b' then some (Char.ofNat 8)
  else if c = 'f' then some (Char.ofNat 12)
  else if c = 'n' then some '\n'
  else if c = 'r' then some '\r'
  else if c = 't' then some '\t'
  else none

/-- Body of a JSON string literal: consumes characters after the opening
quote up to and including the closing quote, handling escapes (including
surrogate-pair `\uXXXX` escapes) and rejecting raw control characters.
Returns the decoded content together with the remaining input. -/
def parse_string_chars (acc : List Char) : List Char → Except String (List Char × List Char)
  | [] => .error "EOF while parsing a string"
  | '"' :: cs => .ok (acc.reverse, cs)
  | '\\' :: 'u' :: a :: b :: c :: d :: cs =>
    match hex4 a b c d with
    | none => .error "invalid escape"
    | some n =>
      if 0xD800 ≤ n ∧ n < 0xDC00 then
        match cs with
        | '\\' :: 'u' :: a2 :: b2 :: c2 :: d2 :: cs2 =>
          match hex4 a2 b2 c2 d2 with
          | none => .error "invalid escape"
          | some n2 =>
            if 0xDC00 ≤ n2 ∧ n2 < 0xE000 then
              parse_string_chars
                (Char.ofNat (0x10000 + (n - 0xD800) * 0x400 + (n2 - 0xDC00)) :: acc) cs2
            else .error "unexpected end of hex escape"
        | _ => .error "unexpected end of hex escape"
      else if 0xDC00 ≤ n ∧ n < 0xE000 then .error "lone trailing surrogate"
      else parse_string_chars (Char.ofNat n :: acc) cs
  | '\\' :: e :: cs =>
    match unescape_char e with
    | none => .error "invalid escape"
    | some c => parse_string_chars (c :: acc) cs
  | c :: cs =>
    if c.toNat < 0x20 then .error "control character in string"
    else parse_string_chars (c :: acc) cs

/-- Modelled from the spec: `config::utils::json::from_str::<String>` (a
serde_json wrapper that is not part of the given sources) deserializes a
JSON document that must be a single string scalar — "payload is a
JSON-encoded string scalar (not a structured object); decode it to a plain
string".  Leading/trailing whitespace is tolerated; any other document shape
or trailing garbage is a decode error. -/
def json_from_str (s : String) : Except String String :=
  match s.data.dropWhile is_json_ws with
  | '"' :: rest =>
    match parse_string_chars [] rest with
    | .error e => .error e
    | .ok (content, rem) =>
      if rem.dropWhile is_json_ws = [] then .ok (String.mk content)
      else .error "trailing characters"
  | _ => .error "expected a string scalar"

/-- Identifier selection of the data migration: the session id is `key2`
unless `key2` is empty, in which case the code falls back to `key1`. -/
def selected_session_id (m : MetaModel) : String :=
  if m.key2.isEmpty then m.key1 else m.key2

/-- Per-record decoding logic of the data migration's `up` loop body:
skip (`.ok none`) when the selected session id is empty; otherwise decode
`value` as a JSON string (a failure is propagated as a migration error,
tagged exactly as in the source); skip when the decoded access token is
empty; otherwise emit the `(session_id, access_token)` pair. -/
def decode_meta (m : MetaModel) : Except String (Option (String × String)) :=
  let session_id := selected_session_id m
  if session_id.isEmpty then .ok none
  else
    match json_from_str m.value with
    | .error e => .error ("Failed to parse session value: " ++ e)
    | .ok access_token =>
      if access_token.isEmpty then .ok none
      else .ok (some (session_id, access_token))

/-- Fuel-driven worker for `paginate100`; the fuel is an upper bound on the
number of remaining elements, so it never runs out on the intended calls. -/
def paginate100_fuel : Nat → List α → List (List α)
  | _, [] => []
  | 0, _ :: _ => []
  | fuel + 1, x :: xs => (x :: xs).take 100 :: paginate100_fuel fuel ((x :: xs).drop 100)

/-- Pagination in windows of 100, as in `.paginate(&txn, 100)`: splits a
list into consecutive chunks of exactly 100 elements (the last chunk may be
shorter); the empty list yields no pages. -/
def paginate100 (l : List α) : List (List α) :=
  paginate100_fuel l.length l

/-- Source ordering of the data migration's query: ascending by `id`
(`.order_by_asc(meta::Column::Id)`), modelled with insertion sort. -/
def sort_by_id (l : List MetaModel) : List MetaModel :=
  List.insertionSort (fun a b => a.id ≤ b.id) l

/-- Pages returned by the paginated query of the data migration:
`meta::Entity::find().filter(module == "user_sessions").order_by_asc(id).paginate(txn, 100)`. -/
def user_sessions_pages (metas : List MetaModel) : List (List MetaModel) :=
  paginate100 (sort_by_id (metas.filter (fun m => m.module == "user_sessions")))

/-- Processing of one fetched page: run every record through the decoder in
order, reading the wall clock once per emitted row (`clock k` is the k-th
clock reading of the run; the source takes `chrono::Utc::now()` separately
for each record that reaches the row-construction point) and using that one
reading for both `created_at` and `updated_at` of the row.  A decode error
aborts the page.  Returns the page's rows and the next clock index. -/
def process_page (clock : Nat → Int) (k : Nat) : List MetaModel → Except String (List SessionRow × Nat)
  | [] => .ok ([], k)
  | m :: ms =>
    match decode_meta m with
    | .error e => .error e
    | .ok none => process_page clock k ms
    | .ok (some (sid, tok)) =>
      let now := clock k
      match process_page clock (k + 1) ms with
      | .error e => .error e
      | .ok (rows, kend) =>
        .ok ({ session_id := sid, access_token := tok, created_at := now, updated_at := now } :: rows, kend)

/-- Observable step of a migration run against the database. -/
inductive Event where
  | begin_txn : Event
  | fetch : List MetaModel → Event
  | insert : List SessionRow → Event
  | commit : Event
  | rollback : Event
  | delete_all : Event
deriving Repr, DecidableEq

/-- Page loop of the data migration's `up`: `fetch_and_next` yields each
non-empty page in turn and ends the loop with one final empty fetch; each
page's valid rows are batch-inserted only when the batch is non-empty
(`if !sessions.is_empty()`); a decode error or a failed insert
(`insert_exec` models the database's execution of `insert_many`) aborts the
loop.  Returns the event trace and either an error or all inserted rows. -/
def run_pages (insert_exec : List SessionRow → Except String Unit) (clock : Nat → Int) :
    Nat → List (List MetaModel) → List Event × Except String (List SessionRow)
  | _, [] => ([Event.fetch []], .ok [])
  | k, page :: rest =>
    match process_page clock k page with
    | .error e => ([Event.fetch page], .error e)
    | .ok (rows, knext) =>
      if rows.isEmpty then
        (Event.fetch page :: (run_pages insert_exec clock knext rest).1,
         (run_pages insert_exec clock knext rest).2)
      else
        match insert_exec rows with
        | .error e => ([Event.fetch page, Event.insert rows], .error e)
        | .ok _ =>
          (Event.fetch page :: Event.insert rows :: (run_pages insert_exec clock knext rest).1,
           (run_pages insert_exec clock knext rest).2.map (fun more => rows ++ more))

/-- Database state visible to the data migration: the `meta` table (read
only) and the `sessions` table (written). -/
structure Db where
  meta : List MetaModel
  sessions : List SessionRow
deriving Repr, DecidableEq

/-- Data migration `up`: one transaction around the whole page loop; on
success the transaction commits and the accumulated rows persist, on any
error the transaction is rolled back and the database is unchanged.  The
result is the event trace, the database state after the run, and the error
if one occurred. -/
def migration_up (insert_exec : List SessionRow → Except String Unit) (clock : Nat → Int)
    (db : Db) : List Event × Db × Option String :=
  match (run_pages insert_exec clock 0 (user_sessions_pages db.meta)).2 with
  | .error e =>
    (Event.begin_txn :: (run_pages insert_exec clock 0 (user_sessions_pages db.meta)).1
       ++ [Event.rollback],
     db, some e)
  | .ok rows =>
    (Event.begin_txn :: (run_pages insert_exec clock 0 (user_sessions_pages db.meta)).1
       ++ [Event.commit],
     { db with sessions := db.sessions ++ rows }, none)

/-- Data migration `down`: `sessions::Entity::delete_many().exec(db)` run
directly on the connection — an unconditional, unfiltered delete of every
row of the `sessions` table, with no transaction around it. -/
def migration_down (db : Db) : List Event × Db :=
  ([Event.delete_all], { db with sessions := [] })

/-- Pages appearing in `fetch` events of a trace, in order. -/
def fetched_pages (evs : List Event) : List (List MetaModel) :=
  evs.filterMap (fun e => match e with | Event.fetch p => some p | _ => none)

/-- Batch insert rejecting any row whose `session_id` exceeds the
`varchar(36)` bound declared for the `sessions.session_id` column by the
schema migration (the strict behaviour of the SQL backends). -/
def varchar36_insert (rows : List SessionRow) : Except String Unit :=
  if rows.all (fun r => r.session_id.length ≤ 36) then .ok () else .error "value too long for type"

/-- Whether an `Except` value is a success. -/
def except_ok (x : Except ε α) : Bool :=
  match x with
  | .ok _ => true
  | .error _ => false

instance {ε α : Type} [DecidableEq ε] [DecidableEq α] : DecidableEq (Except ε α) := fun a b =>
  match a, b with
  | .ok x, .ok y =>
    if h : x = y then .isTrue (congrArg Except.ok h)
    else .isFalse (fun hc => h (Except.ok.inj hc))
  | .error x, .error y =>
    if h : x = y then .isTrue (congrArg Except.error h)
    else .isFalse (fun hc => h (Except.error.inj hc))
  | .ok _, .error _ => .isFalse (fun hc => Except.noConfusion hc)
  | .error _, .ok _ => .isFalse (fun hc => Except.noConfusion hc)

/-- Column type as used by the schema migration's column definitions. -/
inductive ColType where
  | bigInteger : ColType
  | stringLen : Nat → ColType
  | custom : String → ColType
deriving Repr, DecidableEq

/-- Column definition of the schema migration (`ColumnDef::new(..)` with the
modifiers used in the source). -/
structure ColumnDef where
  name : String
  ty : ColType
  not_null : Bool
  auto_increment : Bool
  primary_key : Bool
deriving Repr, DecidableEq

/-- `CREATE TABLE` statement as built by the schema migration. -/
structure TableCreateStatement where
  table : String
  if_not_exists : Bool
  cols : List ColumnDef
deriving Repr, DecidableEq

/-- `CREATE INDEX` statement as built by the schema migration. -/
structure IndexCreateStatement where
  if_not_exists : Bool
  name : String
  table : String
  unique : Bool
  cols : List String
deriving Repr, DecidableEq

/-- Name of the unique index, `SESSION_ID_IDX` in the source. -/
def session_id_idx : String := "sessions_session_id_idx"

/-- Modelled from the spec: `get_text_type` (defined outside the given
sources, in the migration module's parent) returns the dialect-appropriate
unbounded text column type used for `access_token`; the repository's own
DDL tests render it as `text`. -/
def get_text_type : String := "text"

/-- Statement to create the sessions table. -/
def create_sessions_table_statement : TableCreateStatement :=
  { table := "sessions"
    if_not_exists := true
    cols :=
      [ { name := "id", ty := ColType.bigInteger, not_null := true,
          auto_increment := true, primary_key := true },
        { name := "session_id", ty := ColType.stringLen 36, not_null := true,
          auto_increment := false, primary_key := false },
        { name := "access_token", ty := ColType.custom get_text_type, not_null := true,
          auto_increment := false, primary_key := false },
        { name := "created_at", ty := ColType.bigInteger, not_null := true,
          auto_increment := false, primary_key := false },
        { name := "updated_at", ty := ColType.bigInteger, not_null := true,
          auto_increment := false, primary_key := false } ] }

/-- Statement to create unique index on session_id. -/
def create_sessions_session_id_idx_stmnt : IndexCreateStatement :=
  { if_not_exists := true
    name := session_id_idx
    table := "sessions"
    unique := true
    cols := ["session_id"] }

/-- SQL dialects targeted by the repository's DDL tests. -/
inductive Dialect where
  | postgres : Dialect
  | mysql : Dialect
  | sqlite : Dialect
deriving Repr, DecidableEq

/-- Identifier quoting: backticks on MySQL, double quotes elsewhere. -/
def quote_ident (d : Dialect) (s : String) : String :=
  match d with
  | Dialect.mysql => "`" ++ s ++ "`"
  | _ => "\"" ++ s ++ "\""

/-- Rendering of a column type per dialect, as pinned by the repository's
DDL tests: an auto-increment big integer becomes `bigserial` on Postgres
and `integer` on SQLite; otherwise big integers are `bigint`. -/
def render_col_type (d : Dialect) (c : ColumnDef) : String :=
  match c.ty with
  | ColType.bigInteger =>
    match d with
    | Dialect.postgres => if c.auto_increment then "bigserial" else "bigint"
    | Dialect.mysql => "bigint"
    | Dialect.sqlite => if c.auto_increment then "integer" else "bigint"
  | ColType.stringLen n => "varchar(" ++ toString n ++ ")"
  | ColType.custom t => t

/-- Rendering of one column definition per dialect, as pinned by the
repository's DDL tests. -/
def render_col (d : Dialect) (c : ColumnDef) : String :=
  quote_ident d c.name ++ " " ++ render_col_type d c
    ++ (if c.not_null then " NOT NULL" else "")
    ++ (match d with
        | Dialect.postgres => if c.primary_key then " PRIMARY KEY" else ""
        | Dialect.mysql =>
          (if c.auto_increment then " AUTO_INCREMENT" else "")
            ++ (if c.primary_key then " PRIMARY KEY" else "")
        | Dialect.sqlite =>
          (if c.primary_key then " PRIMARY KEY" else "")
            ++ (if c.auto_increment then " AUTOINCREMENT" else ""))

/-- Rendering of the `CREATE TABLE` statement per dialect (whitespace
collapsed, as the repository's tests compare it). -/
def render_create_table (d : Dialect) (t : TableCreateStatement) : String :=
  "CREATE TABLE " ++ (if t.if_not_exists then "IF NOT EXISTS " else "")
    ++ quote_ident d t.table ++ " ( "
    ++ String.intercalate ", " (t.cols.map (render_col d)) ++ " )"

/-- Rendering of the `CREATE INDEX` statement per dialect.  MySQL has no
`CREATE INDEX IF NOT EXISTS`, so the builder's `if_not_exists` flag is
dropped there — exactly what the repository's `mysql` test asserts. -/
def render_create_index (d : Dialect) (i : IndexCreateStatement) : String :=
  "CREATE " ++ (if i.unique then "UNIQUE " else "") ++ "INDEX "
    ++ (match d with
        | Dialect.mysql => ""
        | _ => if i.if_not_exists then "IF NOT EXISTS " else "")
    ++ quote_ident d i.name ++ " ON " ++ quote_ident d i.table
    ++ " (" ++ String.intercalate ", " (i.cols.map (quote_ident d)) ++ ")"

/-- Whether one character list occurs as a contiguous sublist of another. -/
def list_contains_sub (needle hay : List Char) : Bool :=
  hay.tails.any (fun t => needle.isPrefixOf t)

/-- Whether a rendered SQL statement carries an `IF NOT EXISTS` guard. -/
def has_if_not_exists (sql : String) : Bool :=
  list_contains_sub ("IF NOT EXISTS").data sql.data

/-- Schema objects created by the schema migration that exist in the
database: the `sessions` table and the `sessions_session_id_idx` index. -/
structure SchemaState where
  has_table : Bool
  has_index : Bool
deriving Repr, DecidableEq

/-- Execution of the `CREATE TABLE` statement: creating an existing table
fails unless the statement carries the `IF NOT EXISTS` guard. -/
def exec_create_table (t : TableCreateStatement) (s : SchemaState) : Except String SchemaState :=
  if s.has_table then
    if t.if_not_exists then .ok s else .error "table already exists"
  else .ok { s with has_table := true }

/-- Whether the index-creation statement is effectively guarded on the given
dialect: MySQL drops the `if_not_exists` flag at rendering time. -/
def index_guarded (d : Dialect) (i : IndexCreateStatement) : Bool :=
  match d with
  | Dialect.mysql => false
  | _ => i.if_not_exists

/-- Execution of the `CREATE INDEX` statement: creating an existing index
fails unless the rendered statement carries the `IF NOT EXISTS` guard. -/
def exec_create_index (d : Dialect) (i : IndexCreateStatement) (s : SchemaState) :
    Except String SchemaState :=
  if s.has_index then
    if index_guarded d i then .ok s else .error "index already exists"
  else .ok { s with has_index := true }

/-- Execution of a `DROP INDEX` statement: dropping an absent index fails
unless the statement carries an `IF EXISTS` guard. -/
def exec_drop_index (if_exists : Bool) (s : SchemaState) : Except String SchemaState :=
  if s.has_index then .ok { s with has_index := false }
  else if if_exists then .ok s else .error "no such index"

/-- Execution of a `DROP TABLE` statement: dropping an absent table fails
unless the statement carries an `IF EXISTS` guard. -/
def exec_drop_table (if_exists : Bool) (s : SchemaState) : Except String SchemaState :=
  if s.has_table then .ok { s with has_table := false }
  else if if_exists then .ok s else .error "no such table"

/-- Schema migration `up`: create the sessions table, then the unique
index, propagating any error. -/
def schema_up (d : Dialect) (s : SchemaState) : Except String SchemaState :=
  match exec_create_table create_sessions_table_statement s with
  | .error e => .error e
  | .ok s1 => exec_create_index d create_sessions_session_id_idx_stmnt s1

/-- DDL step of a schema rollback trace. -/
inductive DdlEvent where
  | dropIndex : String → DdlEvent
  | dropTable : String → DdlEvent
deriving Repr, DecidableEq

/-- Schema migration `down`: drop the index by name, then drop the table,
propagating any error; neither drop statement carries an `IF EXISTS` guard
in the source (`Index::drop().name(SESSION_ID_IDX)`,
`Table::drop().table(Sessions::Table)`). -/
def schema_down (s : SchemaState) : List DdlEvent × Except String SchemaState :=
  match exec_drop_index false s with
  | .error e => ([DdlEvent.dropIndex session_id_idx], .error e)
  | .ok s1 =>
    match exec_drop_table false s1 with
    | .error e => ([DdlEvent.dropIndex session_id_idx, DdlEvent.dropTable "sessions"], .error e)
    | .ok s2 => ([DdlEvent.dropIndex session_id_idx, DdlEvent.dropTable "sessions"], .ok s2)

/-! Supporting lemmas about pagination and source ordering. -/

theorem paginate100_fuel_flatten :
    ∀ (n : Nat) (l : List α), l.length ≤ n → (paginate100_fuel n l).flatten = l := by
  intro n
  induction n with
  | zero =>
    intro l h
    match l with
    | [] => rfl
  | succ n ih =>
    intro l h
    match l with
    | [] => rfl
    | x :: xs =>
      rw [paginate100_fuel]
      simp only [List.flatten_cons]
      rw [ih ((x :: xs).drop 100) (by simp at h ⊢; omega)]
      exact List.take_append_drop 100 (x :: xs)

theorem paginate100_fuel_mono :
    ∀ (n n2 : Nat) (l : List α), l.length ≤ n → l.length ≤ n2 →
      paginate100_fuel n l = paginate100_fuel n2 l := by
  intro n
  induction n with
  | zero =>
    intro n2 l h h2
    match l with
    | [] => cases n2 <;> rfl
  | succ n ih =>
    intro n2 l h h2
    match l with
    | [] => cases n2 <;> rfl
    | x :: xs =>
      match n2 with
      | 0 => simp at h2
      | n2 + 1 =>
        rw [paginate100_fuel, paginate100_fuel]
        rw [ih n2 ((x :: xs).drop 100) (by simp at h ⊢; omega) (by simp at h2 ⊢; omega)]

theorem paginate100_flatten (l : List α) : (paginate100 l).flatten = l :=
  paginate100_fuel_flatten l.length l le_rfl

theorem mem_paginate100_length {l : List α} {c : List α} (hc : c ∈ paginate100 l) :
    c.length ≤ 100 := by
  suffices h : ∀ n (l : List α), l.length ≤ n → c ∈ paginate100_fuel n l → c.length ≤ 100 from
    h l.length l le_rfl hc
  clear hc
  intro n
  induction n with
  | zero =>
    intro l hlen hc
    match l with
    | [] => simp [paginate100_fuel] at hc
  | succ n ih =>
    intro l hlen hc
    match l with
    | [] => simp [paginate100_fuel] at hc
    | x :: xs =>
      rw [paginate100_fuel] at hc
      rcases List.mem_cons.mp hc with h | h
      · subst h
        simpa using List.length_take_le 100 (x :: xs)
      · exact ih ((x :: xs).drop 100) (by simp at hlen ⊢; omega) h

theorem mem_paginate100_ne_nil {l : List α} {c : List α} (hc : c ∈ paginate100 l) :
    c ≠ [] := by
  suffices h : ∀ n (l : List α), l.length ≤ n → c ∈ paginate100_fuel n l → c ≠ [] from
    h l.length l le_rfl hc
  clear hc
  intro n
  induction n with
  | zero =>
    intro l hlen hc
    match l with
    | [] => simp [paginate100_fuel] at hc
  | succ n ih =>
    intro l hlen hc
    match l with
    | [] => simp [paginate100_fuel] at hc
    | x :: xs =>
      rw [paginate100_fuel] at hc
      rcases List.mem_cons.mp hc with h | h
      · subst h; simp
      · exact ih ((x :: xs).drop 100) (by simp at hlen ⊢; omega) h

theorem mem_of_mem_paginate100 {l c : List α} {x : α} (hc : c ∈ paginate100 l) (hx : x ∈ c) :
    x ∈ l := by
  have : x ∈ (paginate100 l).flatten := List.mem_flatten.mpr ⟨c, hc, hx⟩
  rwa [paginate100_flatten] at this

theorem exists_page_of_mem {l : List α} {x : α} (hx : x ∈ l) :
    ∃ c ∈ paginate100 l, x ∈ c := by
  have : x ∈ (paginate100 l).flatten := by rwa [paginate100_flatten]
  exact List.mem_flatten.mp this

theorem sort_by_id_perm (l : List MetaModel) : (sort_by_id l).Perm l :=
  List.perm_insertionSort (fun a b : MetaModel => a.id ≤ b.id) l

theorem mem_sort_by_id {l : List MetaModel} {m : MetaModel} :
    m ∈ sort_by_id l ↔ m ∈ l :=
  (sort_by_id_perm l).mem_iff

theorem sort_by_id_sorted (l : List MetaModel) :
    (sort_by_id l).Pairwise (fun a b => a.id ≤ b.id) := by
  have := @List.sorted_insertionSort MetaModel (fun a b : MetaModel => a.id ≤ b.id) _
    ⟨fun a b => Int.le_total a.id b.id⟩ ⟨fun _ _ _ h1 h2 => le_trans h1 h2⟩ l
  exact this

theorem mem_user_sessions_pages {metas : List MetaModel} {p : List MetaModel} {m : MetaModel}
    (hp : p ∈ user_sessions_pages metas) (hm : m ∈ p) :
    m ∈ metas ∧ m.module = "user_sessions" := by
  have hmem : m ∈ sort_by_id (metas.filter (fun m => m.module == "user_sessions")) :=
    mem_of_mem_paginate100 hp hm
  have hmem2 := mem_sort_by_id.mp hmem
  have := List.mem_filter.mp hmem2
  exact ⟨this.1, by simpa using this.2⟩

theorem exists_user_sessions_page {metas : List MetaModel} {m : MetaModel}
    (hm : m ∈ metas) (hmod : m.module = "user_sessions") :
    ∃ p ∈ user_sessions_pages metas, m ∈ p := by
  have hf : m ∈ metas.filter (fun m => m.module == "user_sessions") :=
    List.mem_filter.mpr ⟨hm, by simp [hmod]⟩
  exact exists_page_of_mem (mem_sort_by_id.mpr hf)

theorem user_sessions_pages_flatten_sorted (metas : List MetaModel) :
    (user_sessions_pages metas).flatten.Pairwise (fun a b => a.id ≤ b.id) := by
  rw [user_sessions_pages, paginate100_flatten]
  exact sort_by_id_sorted _

/-! Supporting lemmas about the per-record decoder and the page loop. -/

theorem decode_meta_some_sid {m : MetaModel} {sid tok : String}
    (h : decode_meta m = .ok (some (sid, tok))) :
    sid = selected_session_id m := by
  unfold decode_meta at h
  by_cases hid : (selected_session_id m).isEmpty
  · simp [hid] at h
  · simp only [hid, Bool.false_eq_true, if_false] at h
    cases hj : json_from_str m.value with
    | error e => rw [hj] at h; simp at h
    | ok tok2 =>
      rw [hj] at h
      by_cases ht : tok2.isEmpty
      · simp [ht] at h
      · simp [ht] at h
        exact h.1.symm

theorem process_page_timestamps {clock : Nat → Int} {k : Nat} {page : List MetaModel}
    {rows : List SessionRow} {kend : Nat}
    (h : process_page clock k page = .ok (rows, kend)) :
    ∀ r ∈ rows, ∃ j, r.created_at = clock j ∧ r.updated_at = clock j := by
  induction page generalizing k rows kend with
  | nil =>
    simp only [process_page, Except.ok.injEq, Prod.mk.injEq] at h
    rw [← h.1]
    intro r hr
    simp at hr
  | cons m ms ih =>
    simp only [process_page] at h
    cases hdm : decode_meta m with
    | error e => rw [hdm] at h; simp at h
    | ok o =>
      rw [hdm] at h
      cases o with
      | none => exact ih h
      | some p =>
        obtain ⟨sid, tok⟩ := p
        cases hrec : process_page clock (k + 1) ms with
        | error e => rw [hrec] at h; simp at h
        | ok pr =>
          obtain ⟨rows2, k2⟩ := pr
          rw [hrec] at h
          simp only [Except.ok.injEq, Prod.mk.injEq] at h
          intro r hr
          rw [← h.1] at hr
          rcases List.mem_cons.mp hr with h1 | h1
          · exact ⟨k, by rw [h1]; exact ⟨rfl, rfl⟩⟩
          · exact ih hrec r h1

theorem process_page_rows_src {clock : Nat → Int} {k : Nat} {page : List MetaModel}
    {rows : List SessionRow} {kend : Nat}
    (h : process_page clock k page = .ok (rows, kend)) :
    ∀ r ∈ rows, ∃ mm ∈ page, decode_meta mm = .ok (some (r.session_id, r.access_token)) := by
  induction page generalizing k rows kend with
  | nil =>
    simp only [process_page, Except.ok.injEq, Prod.mk.injEq] at h
    rw [← h.1]
    intro r hr
    simp at hr
  | cons m ms ih =>
    simp only [process_page] at h
    cases hdm : decode_meta m with
    | error e => rw [hdm] at h; simp at h
    | ok o =>
      rw [hdm] at h
      cases o with
      | none =>
        intro r hr
        obtain ⟨mm, hmm, hd⟩ := ih h r hr
        exact ⟨mm, List.mem_cons_of_mem m hmm, hd⟩
      | some p =>
        obtain ⟨sid, tok⟩ := p
        cases hrec : process_page clock (k + 1) ms with
        | error e => rw [hrec] at h; simp at h
        | ok pr =>
          obtain ⟨rows2, k2⟩ := pr
          rw [hrec] at h
          simp only [Except.ok.injEq, Prod.mk.injEq] at h
          intro r hr
          rw [← h.1] at hr
          rcases List.mem_cons.mp hr with h1 | h1
          · refine ⟨m, List.mem_cons_self m ms, ?_⟩
            rw [h1, hdm]
          · obtain ⟨mm, hmm, hd⟩ := ih hrec r h1
            exact ⟨mm, List.mem_cons_of_mem m hmm, hd⟩

theorem process_page_error_of_bad {m : MetaModel} {page : List MetaModel} {e : String}
    (hm : m ∈ page) (hbad : decode_meta m = .error e) (clock : Nat → Int) (k : Nat) :
    ∃ e2, process_page clock k page = .error e2 := by
  induction page generalizing k with
  | nil => simp at hm
  | cons m0 ms ih =>
    rcases List.mem_cons.mp hm with h0 | h0
    · subst h0
      exact ⟨e, by simp only [process_page, hbad]⟩
    · cases hdm : decode_meta m0 with
      | error e0 => exact ⟨e0, by simp only [process_page, hdm]⟩
      | ok o =>
        cases o with
        | none =>
          obtain ⟨e2, h2⟩ := ih h0 k
          exact ⟨e2, by simp only [process_page, hdm]; exact h2⟩
        | some p =>
          obtain ⟨sid, tok⟩ := p
          obtain ⟨e2, h2⟩ := ih h0 (k + 1)
          exact ⟨e2, by simp only [process_page, hdm, h2]⟩

theorem process_page_mem_valid {m : MetaModel} {page : List MetaModel} {sid tok : String}
    {clock : Nat → Int} {k : Nat} {rows : List SessionRow} {kend : Nat}
    (hm : m ∈ page) (hdec : decode_meta m = .ok (some (sid, tok)))
    (h : process_page clock k page = .ok (rows, kend)) :
    ∃ r ∈ rows, r.session_id = sid := by
  induction page generalizing k rows kend with
  | nil => simp at hm
  | cons m0 ms ih =>
    simp only [process_page] at h
    cases hdm : decode_meta m0 with
    | error e => rw [hdm] at h; simp at h
    | ok o =>
      rw [hdm] at h
      rcases List.mem_cons.mp hm with h0 | h0
      · subst h0
        rw [hdm] at hdec
        cases hdec
        cases hrec : process_page clock (k + 1) ms with
        | error e => rw [hrec] at h; simp at h
        | ok pr =>
          obtain ⟨rows2, k2⟩ := pr
          rw [hrec] at h
          simp only [Except.ok.injEq, Prod.mk.injEq] at h
          refine ⟨{ session_id := sid, access_token := tok,
                    created_at := clock k, updated_at := clock k }, ?_, rfl⟩
          rw [← h.1]
          exact List.mem_cons_self _ _
      · cases o with
        | none => exact ih h0 h
        | some p =>
          obtain ⟨sid0, tok0⟩ := p
          cases hrec : process_page clock (k + 1) ms with
          | error e => rw [hrec] at h; simp at h
          | ok pr =>
            obtain ⟨rows2, k2⟩ := pr
            rw [hrec] at h
            simp only [Except.ok.injEq, Prod.mk.injEq] at h
            obtain ⟨r, hr, hrs⟩ := ih h0 hrec
            refine ⟨r, ?_, hrs⟩
            rw [← h.1]
            exact List.mem_cons_of_mem _ hr

/-- Pair `(session_id, access_token)` that a record contributes if it is
neither skipped nor fatal. -/
def decoded_pair (m : MetaModel) : Option (String × String) :=
  match decode_meta m with
  | .ok (some p) => some p
  | _ => none

theorem process_page_ok_of_all_ok {page : List MetaModel}
    (hall : ∀ mm ∈ page, except_ok (decode_meta mm) = true) (clock : Nat → Int) (k : Nat) :
    ∃ rows kend, process_page clock k page = .ok (rows, kend)
      ∧ rows.map (fun r => (r.session_id, r.access_token)) = page.filterMap decoded_pair := by
  induction page generalizing k with
  | nil => exact ⟨[], k, rfl, rfl⟩
  | cons m ms ih =>
    have hm := hall m (List.mem_cons_self m ms)
    have hrest : ∀ mm ∈ ms, except_ok (decode_meta mm) = true :=
      fun mm hmm => hall mm (List.mem_cons_of_mem m hmm)
    cases hdm : decode_meta m with
    | error e => rw [hdm] at hm; simp [except_ok] at hm
    | ok o =>
      cases o with
      | none =>
        obtain ⟨rows, kend, hpp, hmap⟩ := ih hrest k
        refine ⟨rows, kend, ?_, ?_⟩
        · simp only [process_page, hdm]; exact hpp
        · rw [hmap, List.filterMap_cons]
          simp [decoded_pair, hdm]
      | some p =>
        obtain ⟨sid, tok⟩ := p
        obtain ⟨rows, kend, hpp, hmap⟩ := ih hrest (k + 1)
        refine ⟨{ session_id := sid, access_token := tok,
                  created_at := clock k, updated_at := clock k } :: rows, kend, ?_, ?_⟩
        · simp only [process_page, hdm, hpp]
        · rw [List.map_cons, hmap, List.filterMap_cons]
          simp [decoded_pair, hdm]

theorem run_pages_events_shape {ie : List SessionRow → Except String Unit} {clock : Nat → Int}
    {k : Nat} {pages : List (List MetaModel)} :
    ∀ e ∈ (run_pages ie clock k pages).1,
      (∃ p, e = Event.fetch p ∧ (p ∈ pages ∨ p = [])) ∨ (∃ rows, e = Event.insert rows) := by
  induction pages generalizing k with
  | nil =>
    intro e he
    simp only [run_pages, List.mem_singleton] at he
    exact Or.inl ⟨[], he, Or.inr rfl⟩
  | cons page rest ih =>
    intro e he
    simp only [run_pages] at he
    cases hpp : process_page clock k page with
    | error err =>
      rw [hpp] at he
      simp only [List.mem_singleton] at he
      exact Or.inl ⟨page, he, Or.inl (List.mem_cons_self _ _)⟩
    | ok pr =>
      obtain ⟨rows, knext⟩ := pr
      rw [hpp] at he
      by_cases hre : rows.isEmpty
      · simp only [hre, if_true] at he
        rcases List.mem_cons.mp he with h0 | h0
        · exact Or.inl ⟨page, h0, Or.inl (List.mem_cons_self _ _)⟩
        · rcases ih _ h0 with ⟨p, hp, hmem⟩ | h1
          · exact Or.inl ⟨p, hp, hmem.imp_left (List.mem_cons_of_mem _)⟩
          · exact Or.inr h1
      · simp only [hre, if_false] at he
        cases hins : ie rows with
        | error err =>
          rw [hins] at he
          rcases List.mem_cons.mp he with h0 | h0
          · exact Or.inl ⟨page, h0, Or.inl (List.mem_cons_self _ _)⟩
          · simp only [List.mem_singleton] at h0
            exact Or.inr ⟨rows, h0⟩
        | ok u =>
          rw [hins] at he
          rcases List.mem_cons.mp he with h0 | h0
          · exact Or.inl ⟨page, h0, Or.inl (List.mem_cons_self _ _)⟩
          · rcases List.mem_cons.mp h0 with h1 | h1
            · exact Or.inr ⟨rows, h1⟩
            · rcases ih _ h1 with ⟨p, hp, hmem⟩ | h2
              · exact Or.inl ⟨p, hp, hmem.imp_left (List.mem_cons_of_mem _)⟩
              · exact Or.inr h2

theorem run_pages_cons_err {ie : List SessionRow → Except String Unit} {clock : Nat → Int}
    {k : Nat} {page : List MetaModel} {rest : List (List MetaModel)} {e : String}
    (hpp : process_page clock k page = .error e) :
    run_pages ie clock k (page :: rest) = ([Event.fetch page], .error e) := by
  simp only [run_pages, hpp]

theorem run_pages_cons_skip {ie : List SessionRow → Except String Unit} {clock : Nat → Int}
    {k : Nat} {page : List MetaModel} {rest : List (List MetaModel)}
    {rows1 : List SessionRow} {knext : Nat}
    (hpp : process_page clock k page = .ok (rows1, knext)) (hre : rows1.isEmpty = true) :
    run_pages ie clock k (page :: rest) =
      (Event.fetch page :: (run_pages ie clock knext rest).1,
       (run_pages ie clock knext rest).2) := by
  simp only [run_pages, hpp, hre, if_true]

theorem run_pages_cons_ins_err {ie : List SessionRow → Except String Unit} {clock : Nat → Int}
    {k : Nat} {page : List MetaModel} {rest : List (List MetaModel)}
    {rows1 : List SessionRow} {knext : Nat} {e : String}
    (hpp : process_page clock k page = .ok (rows1, knext)) (hre : rows1.isEmpty = false)
    (hins : ie rows1 = .error e) :
    run_pages ie clock k (page :: rest) = ([Event.fetch page, Event.insert rows1], .error e) := by
  simp only [run_pages, hpp, hre, hins, Bool.false_eq_true, if_false]

theorem run_pages_cons_ins_ok {ie : List SessionRow → Except String Unit} {clock : Nat → Int}
    {k : Nat} {page : List MetaModel} {rest : List (List MetaModel)}
    {rows1 : List SessionRow} {knext : Nat} {u : Unit}
    (hpp : process_page clock k page = .ok (rows1, knext)) (hre : rows1.isEmpty = false)
    (hins : ie rows1 = .ok u) :
    run_pages ie clock k (page :: rest) =
      (Event.fetch page :: Event.insert rows1 :: (run_pages ie clock knext rest).1,
       (run_pages ie clock knext rest).2.map (fun more => rows1 ++ more)) := by
  simp only [run_pages, hpp, hre, hins, Bool.false_eq_true, if_false]

theorem run_pages_ok_fetched {ie : List SessionRow → Except String Unit} {clock : Nat → Int}
    {k : Nat} {pages : List (List MetaModel)} {rows : List SessionRow}
    (h : (run_pages ie clock k pages).2 = .ok rows) :
    fetched_pages (run_pages ie clock k pages).1 = pages ++ [[]] := by
  induction pages generalizing k rows with
  | nil => simp [run_pages, fetched_pages]
  | cons page rest ih =>
    cases hpp : process_page clock k page with
    | error err =>
      rw [run_pages_cons_err hpp] at h
      simp at h
    | ok pr =>
      obtain ⟨rows1, knext⟩ := pr
      cases hre : rows1.isEmpty with
      | true =>
        rw [run_pages_cons_skip hpp hre] at h ⊢
        simp only [fetched_pages, List.filterMap_cons] at ih ⊢
        rw [ih h]
        simp
      | false =>
        cases hins : ie rows1 with
        | error err =>
          rw [run_pages_cons_ins_err hpp hre hins] at h
          simp at h
        | ok u =>
          rw [run_pages_cons_ins_ok hpp hre hins] at h ⊢
          cases hrr : (run_pages ie clock knext rest).2 with
          | error err => rw [hrr] at h; simp [Except.map] at h
          | ok rows2 =>
            simp only [fetched_pages, List.filterMap_cons] at ih ⊢
            rw [ih hrr]
            simp

theorem run_pages_ok_last {ie : List SessionRow → Except String Unit} {clock : Nat → Int}
    {k : Nat} {pages : List (List MetaModel)} {rows : List SessionRow}
    (h : (run_pages ie clock k pages).2 = .ok rows) :
    ∃ body, (run_pages ie clock k pages).1 = body ++ [Event.fetch []] := by
  induction pages generalizing k rows with
  | nil => exact ⟨[], rfl⟩
  | cons page rest ih =>
    cases hpp : process_page clock k page with
    | error err =>
      rw [run_pages_cons_err hpp] at h
      simp at h
    | ok pr =>
      obtain ⟨rows1, knext⟩ := pr
      cases hre : rows1.isEmpty with
      | true =>
        rw [run_pages_cons_skip hpp hre] at h ⊢
        obtain ⟨body, hbody⟩ := ih h
        exact ⟨Event.fetch page :: body, by rw [hbody]; rfl⟩
      | false =>
        cases hins : ie rows1 with
        | error err =>
          rw [run_pages_cons_ins_err hpp hre hins] at h
          simp at h
        | ok u =>
          rw [run_pages_cons_ins_ok hpp hre hins] at h ⊢
          cases hrr : (run_pages ie clock knext rest).2 with
          | error err => rw [hrr] at h; simp [Except.map] at h
          | ok rows2 =>
            obtain ⟨body, hbody⟩ := ih hrr
            exact ⟨Event.fetch page :: Event.insert rows1 :: body, by rw [hbody]; rfl⟩

theorem run_pages_rows_timestamps {ie : List SessionRow → Except String Unit} {clock : Nat → Int}
    {k : Nat} {pages : List (List MetaModel)} {rows : List SessionRow}
    (h : (run_pages ie clock k pages).2 = .ok rows) :
    ∀ r ∈ rows, ∃ j, r.created_at = clock j ∧ r.updated_at = clock j := by
  induction pages generalizing k rows with
  | nil =>
    simp only [run_pages, Except.ok.injEq] at h
    rw [← h]
    intro r hr
    simp at hr
  | cons page rest ih =>
    cases hpp : process_page clock k page with
    | error err =>
      rw [run_pages_cons_err hpp] at h
      simp at h
    | ok pr =>
      obtain ⟨rows1, knext⟩ := pr
      cases hre : rows1.isEmpty with
      | true =>
        rw [run_pages_cons_skip hpp hre] at h
        exact ih h
      | false =>
        cases hins : ie rows1 with
        | error err =>
          rw [run_pages_cons_ins_err hpp hre hins] at h
          simp at h
        | ok u =>
          rw [run_pages_cons_ins_ok hpp hre hins] at h
          cases hrr : (run_pages ie clock knext rest).2 with
          | error err => rw [hrr] at h; simp [Except.map] at h
          | ok rows2 =>
            rw [hrr] at h
            simp only [Except.map, Except.ok.injEq] at h
            rw [← h]
            intro r hr
            rcases List.mem_append.mp hr with h1 | h1
            · exact process_page_timestamps hpp r h1
            · exact ih hrr r h1

theorem run_pages_rows_src {ie : List SessionRow → Except String Unit} {clock : Nat → Int}
    {k : Nat} {pages : List (List MetaModel)} {rows : List SessionRow}
    (h : (run_pages ie clock k pages).2 = .ok rows) :
    ∀ r ∈ rows, ∃ mm ∈ pages.flatten, decode_meta mm = .ok (some (r.session_id, r.access_token)) := by
  induction pages generalizing k rows with
  | nil =>
    simp only [run_pages, Except.ok.injEq] at h
    rw [← h]
    intro r hr
    simp at hr
  | cons page rest ih =>
    cases hpp : process_page clock k page with
    | error err =>
      rw [run_pages_cons_err hpp] at h
      simp at h
    | ok pr =>
      obtain ⟨rows1, knext⟩ := pr
      cases hre : rows1.isEmpty with
      | true =>
        rw [run_pages_cons_skip hpp hre] at h
        intro r hr
        obtain ⟨mm, hmem, hd⟩ := ih h r hr
        exact ⟨mm, by simp only [List.flatten_cons]; exact List.mem_append_right _ hmem, hd⟩
      | false =>
        cases hins : ie rows1 with
        | error err =>
          rw [run_pages_cons_ins_err hpp hre hins] at h
          simp at h
        | ok u =>
          rw [run_pages_cons_ins_ok hpp hre hins] at h
          cases hrr : (run_pages ie clock knext rest).2 with
          | error err => rw [hrr] at h; simp [Except.map] at h
          | ok rows2 =>
            rw [hrr] at h
            simp only [Except.map, Except.ok.injEq] at h
            rw [← h]
            intro r hr
            rcases List.mem_append.mp hr with h1 | h1
            · obtain ⟨mm, hmem, hd⟩ := process_page_rows_src hpp r h1
              exact ⟨mm, by simp only [List.flatten_cons]; exact List.mem_append_left _ hmem, hd⟩
            · obtain ⟨mm, hmem, hd⟩ := ih hrr r h1
              exact ⟨mm, by simp only [List.flatten_cons]; exact List.mem_append_right _ hmem, hd⟩

theorem run_pages_error_of_bad {ie : List SessionRow → Except String Unit} {clock : Nat → Int}
    {pages : List (List MetaModel)} {p : List MetaModel} {m : MetaModel} {e : String}
    (hp : p ∈ pages) (hm : m ∈ p) (hbad : decode_meta m = .error e) (k : Nat) :
    ∃ e2, (run_pages ie clock k pages).2 = .error e2 := by
  induction pages generalizing k with
  | nil => simp at hp
  | cons page rest ih =>
    rcases List.mem_cons.mp hp with h0 | h0
    · subst h0
      obtain ⟨e2, h2⟩ := process_page_error_of_bad hm hbad clock k
      exact ⟨e2, by rw [run_pages_cons_err h2]⟩
    · cases hpp : process_page clock k page with
      | error err => exact ⟨err, by rw [run_pages_cons_err hpp]⟩
      | ok pr =>
        obtain ⟨rows1, knext⟩ := pr
        cases hre : rows1.isEmpty with
        | true =>
          obtain ⟨e2, h2⟩ := ih h0 knext
          exact ⟨e2, by rw [run_pages_cons_skip hpp hre]; exact h2⟩
        | false =>
          cases hins : ie rows1 with
          | error err => exact ⟨err, by rw [run_pages_cons_ins_err hpp hre hins]⟩
          | ok u =>
            obtain ⟨e2, h2⟩ := ih h0 knext
            refine ⟨e2, ?_⟩
            rw [run_pages_cons_ins_ok hpp hre hins]
            show Except.map _ (run_pages ie clock knext rest).2 = _
            rw [h2]
            rfl

theorem run_pages_error_varchar {clock : Nat → Int}
    {pages : List (List MetaModel)} {p : List MetaModel} {m : MetaModel} {sid tok : String}
    (hp : p ∈ pages) (hm : m ∈ p) (hdec : decode_meta m = .ok (some (sid, tok)))
    (hlen : 36 < sid.length) (k : Nat) :
    ∃ e2, (run_pages varchar36_insert clock k pages).2 = .error e2 := by
  induction pages generalizing k with
  | nil => simp at hp
  | cons page rest ih =>
    rcases List.mem_cons.mp hp with h0 | h0
    · have hm2 : m ∈ page := h0 ▸ hm
      cases hpp : process_page clock k page with
      | error err => exact ⟨err, by rw [run_pages_cons_err hpp]⟩
      | ok pr =>
        obtain ⟨rows1, knext⟩ := pr
        obtain ⟨r, hr, hrs⟩ := process_page_mem_valid hm2 hdec hpp
        have hre : rows1.isEmpty = false := by
          cases rows1 with
          | nil => simp at hr
          | cons a as => rfl
        have hall : rows1.all (fun r => r.session_id.length ≤ 36) = false := by
          rw [List.all_eq_false]
          refine ⟨r, hr, ?_⟩
          rw [hrs]
          simp
          omega
        have hins : varchar36_insert rows1 = .error "value too long for type" := by
          unfold varchar36_insert
          rw [hall]
          rfl
        exact ⟨_, by rw [run_pages_cons_ins_err hpp hre hins]⟩
    · cases hpp : process_page clock k page with
      | error err => exact ⟨err, by rw [run_pages_cons_err hpp]⟩
      | ok pr =>
        obtain ⟨rows1, knext⟩ := pr
        cases hre : rows1.isEmpty with
        | true =>
          obtain ⟨e2, h2⟩ := ih h0 knext
          exact ⟨e2, by rw [run_pages_cons_skip hpp hre]; exact h2⟩
        | false =>
          cases hins : varchar36_insert rows1 with
          | error err => exact ⟨err, by rw [run_pages_cons_ins_err hpp hre hins]⟩
          | ok u =>
            obtain ⟨e2, h2⟩ := ih h0 knext
            refine ⟨e2, ?_⟩
            rw [run_pages_cons_ins_ok hpp hre hins]
            show Except.map _ (run_pages varchar36_insert clock knext rest).2 = _
            rw [h2]
            rfl

theorem run_pages_ok_of_all_ok {clock : Nat → Int} {pages : List (List MetaModel)}
    (hall : ∀ p ∈ pages, ∀ mm ∈ p, except_ok (decode_meta mm) = true) (k : Nat) :
    ∃ rows, (run_pages (fun _ => .ok ()) clock k pages).2 = .ok rows
      ∧ rows.map (fun r => (r.session_id, r.access_token))
          = pages.flatten.filterMap decoded_pair := by
  induction pages generalizing k with
  | nil => exact ⟨[], rfl, rfl⟩
  | cons page rest ih =>
    have hpage := hall page (List.mem_cons_self _ _)
    have hrest : ∀ p ∈ rest, ∀ mm ∈ p, except_ok (decode_meta mm) = true :=
      fun p hp => hall p (List.mem_cons_of_mem _ hp)
    obtain ⟨rows1, kend, hpp, hmap⟩ := process_page_ok_of_all_ok hpage clock k
    obtain ⟨rows2, hrr, hmap2⟩ := ih hrest kend
    cases hre : rows1.isEmpty with
    | true =>
      refine ⟨rows2, ?_, ?_⟩
      · rw [run_pages_cons_skip hpp hre]
        exact hrr
      · have hnil : rows1 = [] := List.isEmpty_iff.mp hre
        rw [hnil] at hmap
        simp only [List.map_nil] at hmap
        rw [hmap2, List.flatten_cons, List.filterMap_append, ← hmap]
        simp
    | false =>
      refine ⟨rows1 ++ rows2, ?_, ?_⟩
      · rw [run_pages_cons_ins_ok hpp hre rfl]
        show Except.map _ (run_pages _ clock kend rest).2 = _
        rw [hrr]
        rfl
      · rw [List.map_append, hmap, hmap2, List.flatten_cons, List.filterMap_append]

theorem migration_up_cases (ie : List SessionRow → Except String Unit) (clock : Nat → Int)
    (db : Db) :
    (∃ rows, (run_pages ie clock 0 (user_sessions_pages db.meta)).2 = .ok rows
      ∧ migration_up ie clock db =
          (Event.begin_txn :: (run_pages ie clock 0 (user_sessions_pages db.meta)).1
             ++ [Event.commit],
           { db with sessions := db.sessions ++ rows }, none))
  ∨ (∃ e, (run_pages ie clock 0 (user_sessions_pages db.meta)).2 = .error e
      ∧ migration_up ie clock db =
          (Event.begin_txn :: (run_pages ie clock 0 (user_sessions_pages db.meta)).1
             ++ [Event.rollback],
           db, some e)) := by
  cases hres : (run_pages ie clock 0 (user_sessions_pages db.meta)).2 with
  | error e =>
    right
    exact ⟨e, rfl, by simp only [migration_up, hres]⟩
  | ok rows =>
    left
    exact ⟨rows, rfl, by simp only [migration_up, hres]⟩

/-! Renderings pinned to the repository's own DDL tests. -/

theorem render_table_postgres_pinned :
    render_create_table Dialect.postgres create_sessions_table_statement
      = "CREATE TABLE IF NOT EXISTS \"sessions\" ( \"id\" bigserial NOT NULL PRIMARY KEY, \"session_id\" varchar(36) NOT NULL, \"access_token\" text NOT NULL, \"created_at\" bigint NOT NULL, \"updated_at\" bigint NOT NULL )" := by
  rfl

theorem render_index_postgres_pinned :
    render_create_index Dialect.postgres create_sessions_session_id_idx_stmnt
      = "CREATE UNIQUE INDEX IF NOT EXISTS \"sessions_session_id_idx\" ON \"sessions\" (\"session_id\")" := by
  rfl

theorem render_table_mysql_pinned :
    render_create_table Dialect.mysql create_sessions_table_statement
      = "CREATE TABLE IF NOT EXISTS `sessions` ( `id` bigint NOT NULL AUTO_INCREMENT PRIMARY KEY, `session_id` varchar(36) NOT NULL, `access_token` text NOT NULL, `created_at` bigint NOT NULL, `updated_at` bigint NOT NULL )" := by
  rfl

theorem render_index_mysql_pinned :
    render_create_index Dialect.mysql create_sessions_session_id_idx_stmnt
      = "CREATE UNIQUE INDEX `sessions_session_id_idx` ON `sessions` (`session_id`)" := by
  rfl

theorem render_table_sqlite_pinned :
    render_create_table Dialect.sqlite create_sessions_table_statement
      = "CREATE TABLE IF NOT EXISTS \"sessions\" ( \"id\" integer NOT NULL PRIMARY KEY AUTOINCREMENT, \"session_id\" varchar(36) NOT NULL, \"access_token\" text NOT NULL, \"created_at\" bigint NOT NULL, \"updated_at\" bigint NOT NULL )" := by
  rfl

theorem render_index_sqlite_pinned :
    render_create_index Dialect.sqlite create_sessions_session_id_idx_stmnt
      = "CREATE UNIQUE INDEX IF NOT EXISTS \"sessions_session_id_idx\" ON \"sessions\" (\"session_id\")" := by
  rfl

/-! Claim theorems. -/

/-- C7, counterexample: the claim that both DDL statements carry the
"if not exists" guard on every supported dialect fails on MySQL, where the
rendered `CREATE UNIQUE INDEX` statement has no guard (exactly as the
repository's own `mysql` test asserts), so re-applying the index statement
against a database that already has the index is not safe. -/
theorem c7_counterexample :
    has_if_not_exists (render_create_index Dialect.mysql create_sessions_session_id_idx_stmnt)
      = false
  ∧ except_ok (exec_create_index Dialect.mysql create_sessions_session_id_idx_stmnt
      { has_table := true, has_index := true }) = false := by
  exact ⟨by decide, by decide⟩

/-- C7, amended: the `CREATE TABLE` statement carries the "if not exists"
guard on all three dialects and is safely re-applicable; the
`CREATE UNIQUE INDEX` statement carries the guard on Postgres and SQLite
(where it is safely re-applicable) but not on MySQL. -/
theorem c7_amended (d : Dialect) :
    has_if_not_exists (render_create_table d create_sessions_table_statement) = true
  ∧ has_if_not_exists (render_create_index d create_sessions_session_id_idx_stmnt)
      = (match d with | Dialect.mysql => false | _ => true)
  ∧ (∀ s s1, exec_create_table create_sessions_table_statement s = .ok s1 →
      exec_create_table create_sessions_table_statement s1 = .ok s1)
  ∧ (d ≠ Dialect.mysql →
      ∀ s s1, exec_create_index d create_sessions_session_id_idx_stmnt s = .ok s1 →
        exec_create_index d create_sessions_session_id_idx_stmnt s1 = .ok s1) := by
  refine ⟨?_, ?_, ?_, ?_⟩
  · cases d <;> decide
  · cases d <;> decide
  · intro s s1
    obtain ⟨t, i⟩ := s
    obtain ⟨t1, i1⟩ := s1
    cases t <;> cases i <;> cases t1 <;> cases i1 <;> decide
  · intro hne s s1
    obtain ⟨t, i⟩ := s
    obtain ⟨t1, i1⟩ := s1
    cases d with
    | mysql => exact absurd rfl hne
    | postgres => cases t <;> cases i <;> cases t1 <;> cases i1 <;> decide
    | sqlite => cases t <;> cases i <;> cases t1 <;> cases i1 <;> decide

/-- C7, witness: re-applying the guarded Postgres index statement to a
state that already has the index succeeds and leaves the state unchanged. -/
theorem c7_witness :
    exec_create_index Dialect.postgres create_sessions_session_id_idx_stmnt
      { has_table := false, has_index := true } = .ok { has_table := false, has_index := true } :=
  (c7_amended Dialect.postgres).2.2.2 (by decide)
    { has_table := false, has_index := true } { has_table := false, has_index := true } (by decide)

/-- C4, counterexample: the schema migration's `down` is not an idempotent
no-op on an absent target: its drop statements carry no "if exists" guard,
so when the index (or the table) is already missing, the drop fails and
`down` returns the error instead of succeeding. -/
theorem c4_counterexample :
    except_ok (schema_down { has_table := false, has_index := false }).2 = false
  ∧ except_ok (schema_down { has_table := true, has_index := false }).2 = false
  ∧ except_ok (schema_down { has_table := false, has_index := true }).2 = false := by
  exact ⟨rfl, rfl, rfl⟩

/-- C4, amended: the schema migration's `down` succeeds exactly when both
the index and the table are present; when either is absent the unguarded
drop fails and `down` propagates the error rather than treating the absent
target as a non-fatal no-op. -/
theorem c4_amended (s : SchemaState) :
    except_ok (schema_down s).2 = (s.has_index && s.has_table) := by
  obtain ⟨t, i⟩ := s
  cases t <;> cases i <;> rfl

/-- C8: the data migration's `down` issues one unconditional, unfiltered
delete directly on the connection: afterwards the sessions table holds zero
rows whatever it held before, the meta table is untouched, and no
transaction events (begin/commit) appear in its trace. -/
theorem c8_down_deletes_all (db : Db) :
    (migration_down db).2.sessions = []
  ∧ (migration_down db).2.meta = db.meta
  ∧ Event.begin_txn ∉ (migration_down db).1
  ∧ Event.commit ∉ (migration_down db).1
  ∧ (migration_down db).1 = [Event.delete_all] := by
  refine ⟨rfl, rfl, ?_, ?_, rfl⟩ <;> simp [migration_down]

/-- C9: running the schema migration's `down` after a successful `up` drops
the unique index first and then the table, and leaves a state with neither
the sessions table nor the sessions_session_id_idx index. -/
theorem c9_roundtrip (d : Dialect) (s s1 : SchemaState) (h : schema_up d s = .ok s1) :
    (schema_down s1).1 = [DdlEvent.dropIndex session_id_idx, DdlEvent.dropTable "sessions"]
  ∧ (schema_down s1).2 = .ok { has_table := false, has_index := false } := by
  obtain ⟨t, i⟩ := s
  obtain ⟨t1, i1⟩ := s1
  revert h
  cases d <;> cases t <;> cases i <;> cases t1 <;> cases i1 <;> decide

/-- C9, witness: a concrete round trip from the empty schema on Postgres. -/
theorem c9_witness :
    (schema_down { has_table := true, has_index := true }).1
        = [DdlEvent.dropIndex session_id_idx, DdlEvent.dropTable "sessions"]
  ∧ (schema_down { has_table := true, has_index := true }).2
        = .ok { has_table := false, has_index := false } :=
  c9_roundtrip Dialect.postgres { has_table := false, has_index := false }
    { has_table := true, has_index := true } (by decide)

/-- C2: for every legacy record, the derived identifier is `key2` whenever
`key2` is non-empty, and `key1` when `key2` is empty and `key1` is not;
any emitted pair carries exactly that identifier; and a record with both
identifier slots empty is skipped — no pair and no error. -/
theorem c2_decoder (m : MetaModel) :
    (m.key2.isEmpty = false → selected_session_id m = m.key2)
  ∧ (m.key2.isEmpty = true → m.key1.isEmpty = false → selected_session_id m = m.key1)
  ∧ (∀ sid tok, decode_meta m = .ok (some (sid, tok)) → sid = selected_session_id m)
  ∧ (m.key2.isEmpty = true → m.key1.isEmpty = true → decode_meta m = .ok none) := by
  refine ⟨?_, ?_, ?_, ?_⟩
  · intro h2
    simp [selected_session_id, h2]
  · intro h2 h1
    simp [selected_session_id, h2]
  · intro sid tok h
    exact decode_meta_some_sid h
  · intro h2 h1
    have hsel : (selected_session_id m).isEmpty = true := by
      simp [selected_session_id, h2, h1]
    simp [decode_meta, hsel]

/-- C2, witness: a record with both identifier slots empty is skipped with
no error even though its payload would not decode. -/
theorem c2_witness :
    decode_meta { id := 1, module := "user_sessions", key1 := "", key2 := "",
                  start_dt := 0, value := "not-json" } = .ok none :=
  (c2_decoder _).2.2.2 (by decide) (by decide)

/-- C1, counterexample: a "user_sessions" record whose payload fails
JSON-string decoding but whose identifier slots are both empty is skipped
before the payload is ever decoded, so `up` commits without error and
inserts nothing — refuting the claim that every target-category record
with an undecodable payload makes `up` fail. -/
theorem c1_counterexample :
    except_ok (json_from_str "not-json") = false
  ∧ (migration_up (fun _ => .ok ()) (fun _ => 0)
      { meta := [{ id := 1, module := "user_sessions", key1 := "", key2 := "",
                   start_dt := 0, value := "not-json" }], sessions := [] }).2.2 = none
  ∧ (migration_up (fun _ => .ok ()) (fun _ => 0)
      { meta := [{ id := 1, module := "user_sessions", key1 := "", key2 := "",
                   start_dt := 0, value := "not-json" }], sessions := [] }).2.1.sessions
      = [] := by
  exact ⟨by decide, by decide, by decide⟩

/-- C1, amended: for every run, if some "user_sessions" record with a
non-empty selected identifier has a payload that fails JSON-string
decoding, then `up` returns an error and the transaction is rolled back —
the database is exactly as before the run (zero session rows when the
table started empty), even if earlier pages had produced valid batch
inserts, and whatever the insert executor and clock do. -/
theorem c1_amended (ie : List SessionRow → Except String Unit) (clock : Nat → Int) (db : Db)
    (m : MetaModel) (e : String) (hmem : m ∈ db.meta) (hmod : m.module = "user_sessions")
    (hid : (selected_session_id m).isEmpty = false)
    (hbad : json_from_str m.value = .error e) :
    (migration_up ie clock db).2.1 = db ∧ (migration_up ie clock db).2.2 ≠ none := by
  have hdec : decode_meta m = .error ("Failed to parse session value: " ++ e) := by
    simp [decode_meta, hid, hbad]
  obtain ⟨p, hp, hmp⟩ := exists_user_sessions_page hmem hmod
  obtain ⟨e2, herr⟩ := run_pages_error_of_bad hp hmp hdec 0
  rcases migration_up_cases ie clock db with ⟨rows, hok, heq⟩ | ⟨e3, h3, heq⟩
  · rw [hok] at herr
    exact absurd herr (by simp)
  · rw [heq]
    exact ⟨rfl, by simp⟩

/-- C1, witness: one bad-payload record with a non-empty identifier makes
the whole run fail and leaves the empty table empty. -/
theorem c1_witness :
    (migration_up (fun _ => .ok ()) (fun _ => 0)
        { meta := [{ id := 5, module := "user_sessions", key1 := "", key2 := "sess-1",
                     start_dt := 0, value := "not-json" }], sessions := [] }).2.1
      = { meta := [{ id := 5, module := "user_sessions", key1 := "", key2 := "sess-1",
                     start_dt := 0, value := "not-json" }], sessions := [] }
  ∧ (migration_up (fun _ => .ok ()) (fun _ => 0)
        { meta := [{ id := 5, module := "user_sessions", key1 := "", key2 := "sess-1",
                     start_dt := 0, value := "not-json" }], sessions := [] }).2.2 ≠ none :=
  c1_amended (fun _ => .ok ()) (fun _ => 0)
    { meta := [{ id := 5, module := "user_sessions", key1 := "", key2 := "sess-1",
                 start_dt := 0, value := "not-json" }], sessions := [] }
    { id := 5, module := "user_sessions", key1 := "", key2 := "sess-1",
      start_dt := 0, value := "not-json" } "expected a string scalar"
    (by decide) (by decide) (by decide) (by decide)

/-- C3, counterexample: the wall clock is read once per record, not once
per page, so a single page's one batch insert can contain rows with
different `created_at` values when the clock advances between records —
refuting the claim that all rows of a page's batch share one timestamp. -/
theorem c3_counterexample :
    Event.insert
        [{ session_id := "a", access_token := "x", created_at := 0, updated_at := 0 },
         { session_id := "b", access_token := "y", created_at := 1, updated_at := 1 }]
      ∈ (migration_up (fun _ => .ok ()) (fun n => (n : Int))
          { meta := [{ id := 1, module := "user_sessions", key1 := "", key2 := "a",
                       start_dt := 0, value := "\"x\"" },
                     { id := 2, module := "user_sessions", key1 := "", key2 := "b",
                       start_dt := 0, value := "\"y\"" }], sessions := [] }).1
  ∧ ∃ r1 ∈ ([{ session_id := "a", access_token := "x", created_at := 0, updated_at := 0 },
             { session_id := "b", access_token := "y", created_at := 1, updated_at := 1 }] :
              List SessionRow),
      ∃ r2 ∈ ([{ session_id := "a", access_token := "x", created_at := 0, updated_at := 0 },
               { session_id := "b", access_token := "y", created_at := 1, updated_at := 1 }] :
                List SessionRow),
        r1.created_at ≠ r2.created_at := by
  exact ⟨by decide, by decide⟩

/-- C3, amended: every row a run inserts has `created_at = updated_at`,
both set from a wall-clock reading taken per record; rows of one batch all
share the timestamp only when the clock does not advance — in particular,
under a constant clock every inserted row of every batch carries that one
time. -/
theorem c3_amended (ie : List SessionRow → Except String Unit) (clock : Nat → Int) (db : Db) :
    (∀ r ∈ (migration_up ie clock db).2.1.sessions,
        r ∈ db.sessions ∨ r.created_at = r.updated_at)
  ∧ (∀ t : Int, ∀ r ∈ (migration_up ie (fun _ => t) db).2.1.sessions,
        r ∈ db.sessions ∨ (r.created_at = t ∧ r.updated_at = t)) := by
  constructor
  · intro r hr
    rcases migration_up_cases ie clock db with ⟨rows, hok, heq⟩ | ⟨e, herr, heq⟩
    · rw [heq] at hr
      rcases List.mem_append.mp hr with h1 | h1
      · exact Or.inl h1
      · obtain ⟨j, hc, hu⟩ := run_pages_rows_timestamps hok r h1
        exact Or.inr (by rw [hc, hu])
    · rw [heq] at hr
      exact Or.inl hr
  · intro t r hr
    rcases migration_up_cases ie (fun _ => t) db with ⟨rows, hok, heq⟩ | ⟨e, herr, heq⟩
    · rw [heq] at hr
      rcases List.mem_append.mp hr with h1 | h1
      · exact Or.inl h1
      · obtain ⟨j, hc, hu⟩ := run_pages_rows_timestamps hok r h1
        exact Or.inr ⟨hc, hu⟩
    · rw [heq] at hr
      exact Or.inl hr

/-- C3, witness: under a constant clock the single inserted row carries the
constant time in both timestamp columns. -/
theorem c3_witness :
    { session_id := "a", access_token := "x", created_at := (7 : Int), updated_at := 7 }
        ∈ ([] : List SessionRow)
      ∨ (({ session_id := "a", access_token := "x", created_at := (7 : Int),
            updated_at := 7 } : SessionRow).created_at = 7
         ∧ ({ session_id := "a", access_token := "x", created_at := (7 : Int),
              updated_at := 7 } : SessionRow).updated_at = 7) :=
  (c3_amended (fun _ => .ok ()) (fun _ => 7)
      { meta := [{ id := 1, module := "user_sessions", key1 := "", key2 := "a",
                   start_dt := 0, value := "\"x\"" }], sessions := [] }).2 7
    _ (by decide)

/-- C5: `up` opens exactly one transaction (a single leading `begin_txn`),
fetches only pages of the paginated "user_sessions" query — each of at most
100 records, all of the target module, with the concatenation in ascending
id order — and on success the trace ends with the empty fetch immediately
followed by the single commit; a failed run has no commit at all. -/
theorem c5_driver (ie : List SessionRow → Except String Unit) (clock : Nat → Int) (db : Db) :
    ((migration_up ie clock db).1.head? = some Event.begin_txn)
  ∧ ((migration_up ie clock db).1.count Event.begin_txn = 1)
  ∧ ((migration_up ie clock db).1.count Event.commit ≤ 1)
  ∧ ((migration_up ie clock db).2.2 = none →
      ∃ pre, (migration_up ie clock db).1
          = Event.begin_txn :: pre ++ [Event.fetch [], Event.commit])
  ∧ ((migration_up ie clock db).2.2 ≠ none → Event.commit ∉ (migration_up ie clock db).1)
  ∧ ((migration_up ie clock db).2.2 = none →
      fetched_pages (migration_up ie clock db).1 = user_sessions_pages db.meta ++ [[]])
  ∧ (∀ p, Event.fetch p ∈ (migration_up ie clock db).1 →
      p ∈ user_sessions_pages db.meta ∨ p = [])
  ∧ (∀ p ∈ user_sessions_pages db.meta,
      p.length ≤ 100 ∧ ∀ mm ∈ p, mm.module = "user_sessions")
  ∧ (user_sessions_pages db.meta).flatten.Pairwise (fun a b => a.id ≤ b.id) := by
  have hshape := @run_pages_events_shape ie clock 0 (user_sessions_pages db.meta)
  have hnotbegin : Event.begin_txn ∉ (run_pages ie clock 0 (user_sessions_pages db.meta)).1 := by
    intro hmem
    rcases hshape _ hmem with ⟨p, hp, _⟩ | ⟨rows2, hr⟩
    · simp at hp
    · simp at hr
  have hnotcommit : Event.commit ∉ (run_pages ie clock 0 (user_sessions_pages db.meta)).1 := by
    intro hmem
    rcases hshape _ hmem with ⟨p, hp, _⟩ | ⟨rows2, hr⟩
    · simp at hp
    · simp at hr
  have hcount0 : (run_pages ie clock 0 (user_sessions_pages db.meta)).1.count Event.begin_txn
      = 0 := List.count_eq_zero.mpr hnotbegin
  have hcountc : (run_pages ie clock 0 (user_sessions_pages db.meta)).1.count Event.commit
      = 0 := List.count_eq_zero.mpr hnotcommit
  have hpages : ∀ p ∈ user_sessions_pages db.meta,
      p.length ≤ 100 ∧ ∀ mm ∈ p, mm.module = "user_sessions" := by
    intro p hp
    exact ⟨mem_paginate100_length hp, fun mm hmm => (mem_user_sessions_pages hp hmm).2⟩
  have hsorted := user_sessions_pages_flatten_sorted db.meta
  have hfetchmem : ∀ p, Event.fetch p ∈ (run_pages ie clock 0 (user_sessions_pages db.meta)).1 →
      p ∈ user_sessions_pages db.meta ∨ p = [] := by
    intro p hp
    rcases hshape _ hp with ⟨p2, hp2, hmem2⟩ | ⟨rows2, hr2⟩
    · have : p = p2 := by injection hp2
      rw [this]
      exact hmem2
    · simp at hr2
  rcases migration_up_cases ie clock db with ⟨rows, hok, heq⟩ | ⟨e, herr, heq⟩
  · rw [heq]
    refine ⟨rfl, ?_, ?_, ?_, ?_, ?_, ?_, hpages, hsorted⟩
    · simp [List.count_cons, List.count_append, hcount0]
    · simp [List.count_cons, List.count_append, hcountc]
    · intro _
      obtain ⟨body, hbody⟩ := run_pages_ok_last hok
      refine ⟨body, ?_⟩
      rw [hbody]
      simp
    · intro hne
      simp at hne
    · intro _
      simp only [fetched_pages, List.filterMap_cons, List.filterMap_append]
      have hf := run_pages_ok_fetched hok
      simp only [fetched_pages] at hf
      simp [hf]
    · intro p hp
      rcases List.mem_cons.mp hp with h0 | h0
      · simp at h0
      · rcases List.mem_append.mp h0 with h1 | h1
        · exact hfetchmem p h1
        · simp at h1
  · rw [heq]
    refine ⟨rfl, ?_, ?_, ?_, ?_, ?_, ?_, hpages, hsorted⟩
    · simp [List.count_cons, List.count_append, hcount0]
    · simp [List.count_cons, List.count_append, hcountc]
    · intro hnone
      simp at hnone
    · intro _
      intro hmem
      rcases List.mem_cons.mp hmem with h0 | h0
      · simp at h0
      · rcases List.mem_append.mp h0 with h1 | h1
        · exact hnotcommit h1
        · simp at h1
    · intro hnone
      simp at hnone
    · intro p hp
      rcases List.mem_cons.mp hp with h0 | h0
      · simp at h0
      · rcases List.mem_append.mp h0 with h1 | h1
        · exact hfetchmem p h1
        · simp at h1

/-- C5, witness: a concrete successful run whose trace is the begin, the
fetches and inserts, the final empty fetch, and the commit. -/
theorem c5_witness :
    ∃ pre, (migration_up (fun _ => .ok ()) (fun _ => 0)
        { meta := [{ id := 1, module := "user_sessions", key1 := "", key2 := "a",
                     start_dt := 0, value := "\"x\"" }], sessions := [] }).1
      = Event.begin_txn :: pre ++ [Event.fetch [], Event.commit] :=
  (c5_driver (fun _ => .ok ()) (fun _ => 0)
      { meta := [{ id := 1, module := "user_sessions", key1 := "", key2 := "a",
                   start_dt := 0, value := "\"x\"" }], sessions := [] }).2.2.2.1 (by decide)

/-- C6: a record whose payload decodes to the empty string is skipped with
no error and contributes no pair; a page whose processing yields zero valid
rows produces no insert event (and no error) — the loop just moves on; and
when every "user_sessions" record decodes without a fatal error, the run
still commits, inserting exactly the decoded pairs of the non-skipped
records in source order (so the skipped record is missing while every other
valid record of its page is present). -/
theorem c6_empty_token (clock : Nat → Int) (db : Db)
    (hall : ∀ m ∈ db.meta, m.module = "user_sessions" → except_ok (decode_meta m) = true) :
    (∀ m : MetaModel, json_from_str m.value = .ok "" → decode_meta m = .ok none)
  ∧ (∀ (ie : List SessionRow → Except String Unit) (clock2 : Nat → Int) (k knext : Nat)
        (page : List MetaModel) (rest : List (List MetaModel)),
        process_page clock2 k page = .ok ([], knext) →
        (run_pages ie clock2 k (page :: rest)).1
            = Event.fetch page :: (run_pages ie clock2 knext rest).1
          ∧ (run_pages ie clock2 k (page :: rest)).2 = (run_pages ie clock2 knext rest).2)
  ∧ (migration_up (fun _ => .ok ()) clock db).2.2 = none
  ∧ (migration_up (fun _ => .ok ()) clock db).2.1.sessions.map
        (fun r => (r.session_id, r.access_token))
      = db.sessions.map (fun r => (r.session_id, r.access_token))
          ++ (sort_by_id (db.meta.filter (fun m => m.module == "user_sessions"))).filterMap
              decoded_pair := by
  have hallp : ∀ p ∈ user_sessions_pages db.meta, ∀ mm ∈ p,
      except_ok (decode_meta mm) = true := by
    intro p hp mm hmm
    obtain ⟨h1, h2⟩ := mem_user_sessions_pages hp hmm
    exact hall mm h1 h2
  obtain ⟨rows, hok, hmap⟩ :=
    @run_pages_ok_of_all_ok clock (user_sessions_pages db.meta) hallp 0
  have hfl : (user_sessions_pages db.meta).flatten
      = sort_by_id (db.meta.filter (fun m => m.module == "user_sessions")) :=
    paginate100_flatten _
  refine ⟨?_, ?_, ?_, ?_⟩
  · intro m hj
    by_cases hid : (selected_session_id m).isEmpty
    · simp [decode_meta, hid]
    · simp [decode_meta, hid, hj]
      decide
  · intro ie clock2 k knext page rest hpp
    rw [run_pages_cons_skip hpp rfl]
    exact ⟨rfl, rfl⟩
  · rcases migration_up_cases (fun _ => .ok ()) clock db with ⟨rows2, hok2, heq⟩ | ⟨e, herr, heq⟩
    · rw [heq]
    · rw [hok] at herr
      simp at herr
  · rcases migration_up_cases (fun _ => .ok ()) clock db with ⟨rows2, hok2, heq⟩ | ⟨e, herr, heq⟩
    · rw [heq]
      have hr : rows2 = rows := by
        rw [hok] at hok2
        exact (Except.ok.inj hok2).symm
      rw [hfl] at hmap
      rw [hr, List.map_append, hmap]
    · rw [hok] at herr
      simp at herr

/-- C6, witness: a two-record page where one payload decodes to the empty
string still commits, inserting only the valid record's pair. -/
theorem c6_witness :
    (migration_up (fun _ => .ok ()) (fun _ => 0)
        { meta := [{ id := 1, module := "user_sessions", key1 := "", key2 := "a",
                     start_dt := 0, value := "\"x\"" },
                   { id := 2, module := "user_sessions", key1 := "", key2 := "b",
                     start_dt := 0, value := "\"\"" }], sessions := [] }).2.2 = none :=
  (c6_empty_token (fun _ => 0)
      { meta := [{ id := 1, module := "user_sessions", key1 := "", key2 := "a",
                   start_dt := 0, value := "\"x\"" },
                 { id := 2, module := "user_sessions", key1 := "", key2 := "b",
                   start_dt := 0, value := "\"\"" }], sessions := [] }
      (by decide)).2.2.1

/-- C10: the selected identifier reaches the insert verbatim — every
inserted row's `session_id` is exactly the record's selected identifier,
with no truncation or length validation — and any insert failure is fatal:
whenever `up` reports an error the database is unchanged; in particular,
under the varchar(36)-enforcing insert, a single valid record whose
identifier exceeds 36 characters makes the whole migration fail and roll
back instead of being skipped. -/
theorem c10_verbatim_and_fatal :
    (∀ (clock : Nat → Int) (k : Nat) (page : List MetaModel) rows kend,
        process_page clock k page = .ok (rows, kend) →
        ∀ r ∈ rows, ∃ mm ∈ page, r.session_id = selected_session_id mm)
  ∧ (∀ (ie : List SessionRow → Except String Unit) (clock : Nat → Int) (db : Db),
        (migration_up ie clock db).2.2 ≠ none → (migration_up ie clock db).2.1 = db)
  ∧ (∀ (clock : Nat → Int) (db : Db) (m : MetaModel) (sid tok : String),
        m ∈ db.meta → m.module = "user_sessions" →
        decode_meta m = .ok (some (sid, tok)) → 36 < sid.length →
        (migration_up varchar36_insert clock db).2.2 ≠ none
          ∧ (migration_up varchar36_insert clock db).2.1 = db) := by
  refine ⟨?_, ?_, ?_⟩
  · intro clock k page rows kend h r hr
    obtain ⟨mm, hmm, hd⟩ := process_page_rows_src h r hr
    exact ⟨mm, hmm, decode_meta_some_sid hd⟩
  · intro ie clock db hne
    rcases migration_up_cases ie clock db with ⟨rows, hok, heq⟩ | ⟨e, herr, heq⟩
    · rw [heq] at hne
      simp at hne
    · rw [heq]
  · intro clock db m sid tok hmem hmod hdec hlen
    obtain ⟨p, hp, hmp⟩ := exists_user_sessions_page hmem hmod
    obtain ⟨e2, herr⟩ := run_pages_error_varchar hp hmp hdec hlen 0
    rcases migration_up_cases varchar36_insert clock db
      with ⟨rows, hok, heq⟩ | ⟨e3, h3, heq⟩
    · rw [hok] at herr
      simp at herr
    · rw [heq]
      exact ⟨by simp, rfl⟩

/-- C10, witness: a 37-character identifier is fatal under the
varchar(36)-enforcing insert — the run errors and the table is unchanged. -/
theorem c10_witness :
    (migration_up varchar36_insert (fun _ => 0)
        { meta := [{ id := 1, module := "user_sessions", key1 := "",
                     key2 := "aaaaaaaaaaaaaaaaaaaaaaaaaaaaaaaaaaaaa",
                     start_dt := 0, value := "\"t\"" }], sessions := [] }).2.2 ≠ none
  ∧ (migration_up varchar36_insert (fun _ => 0)
        { meta := [{ id := 1, module := "user_sessions", key1 := "",
                     key2 := "aaaaaaaaaaaaaaaaaaaaaaaaaaaaaaaaaaaaa",
                     start_dt := 0, value := "\"t\"" }], sessions := [] }).2.1
      = { meta := [{ id := 1, module := "user_sessions", key1 := "",
                     key2 := "aaaaaaaaaaaaaaaaaaaaaaaaaaaaaaaaaaaaa",
                     start_dt := 0, value := "\"t\"" }], sessions := [] } :=
  c10_verbatim_and_fatal.2.2 (fun _ => 0)
    { meta := [{ id := 1, module := "user_sessions", key1 := "",
                 key2 := "aaaaaaaaaaaaaaaaaaaaaaaaaaaaaaaaaaaaa",
                 start_dt := 0, value := "\"t\"" }], sessions := [] }
    { id := 1, module := "user_sessions", key1 := "",
      key2 := "aaaaaaaaaaaaaaaaaaaaaaaaaaaaaaaaaaaaa",
      start_dt := 0, value := "\"t\"" }
    "aaaaaaaaaaaaaaaaaaaaaaaaaaaaaaaaaaaaa" "t"
    (by decide) (by decide) (by decide) (by decide)
